import Mathlib

/-!
Verification of `gaussian_adaptive_attention/MHGAAM.py`.

The module acts independently on each one-dimensional slice taken along
`norm_axis`, and elementwise across every other axis, so a tensor is
embedded as the `List ℝ` of one such slice.  Floating-point arithmetic is
modelled by exact real arithmetic.  Fallible Python code (`raise`) is
modelled with `Except`.
-/

noncomputable section

namespace MHGAAM

/-- `torch.Tensor.mean(dim, keepdim=True)` on one slice: the sum divided by
the full length of the slice. -/
def listMean (xs : List ℝ) : ℝ := xs.sum / xs.length

/-- `torch.Tensor.var(dim, keepdim=True)` on one slice with torch's default
`unbiased=True`: squared deviations from the mean divided by `n - 1`. -/
def listVar (xs : List ℝ) : ℝ :=
  (xs.map (fun v => (v - listMean xs) ^ 2)).sum / ((xs.length : ℝ) - 1)

/-- `torch.nn.functional.softmax(w, dim=0)` on a vector. -/
def softmax (w : List ℝ) : List ℝ :=
  w.map (fun v => Real.exp v / (w.map Real.exp).sum)

/-- The `weights` attribute of `GaussianAdaptiveAttention`: either an
`nn.Parameter` (the learnable case, softmax-normalized in `forward`) or a
raw externally supplied tensor (used as-is in `forward`). -/
inductive Weights where
  | param (w : List ℝ)
  | fixed (w : List ℝ)

/-- The state of a constructed `GaussianAdaptiveAttention` module:
its hyperparameters and its parameter tensors. -/
structure GaussianAdaptiveAttention where
  num_gaussians : ℕ
  eps : ℝ
  padding_value : Option ℝ
  mean_offsets : List ℝ
  c : List ℝ
  weights : Weights

/-- The `initial_c` constructor argument: a Python scalar or a tensor. -/
inductive ScaleArg where
  | scalar (v : ℝ)
  | tensor (vs : List ℝ)

/-- The `learnable_weights` constructor argument: a Python boolean or a
tensor (any other Python value behaves like `boolean false`: it is neither
`is True` nor a tensor, so `__init__` raises `TypeError`). -/
inductive WeightsArg where
  | boolean (b : Bool)
  | tensor (vs : List ℝ)

/-- The two exception kinds raised by `GaussianAdaptiveAttention.__init__`. -/
inductive InitError where
  | valueError
  | typeError
deriving DecidableEq

/-- `GaussianAdaptiveAttention.__init__`: checks the explicit `initial_c`
tensor length, then the `learnable_weights` argument, and records the
parameters.  `mean_offsets` is initialized to zeros, a scalar `initial_c`
is broadcast with `torch.full`, and `learnable_weights is True` yields an
`nn.Parameter` of ones. -/
def init (num_gaussians : ℕ) (initial_c : ScaleArg) (eps : ℝ)
    (learnable_weights : WeightsArg) (padding_value : Option ℝ) :
    Except InitError GaussianAdaptiveAttention := do
  let c ← match initial_c with
    | .tensor vs =>
        if vs.length = num_gaussians then Except.ok vs
        else Except.error InitError.valueError
    | .scalar v => Except.ok (List.replicate num_gaussians v)
  let weights ← match learnable_weights with
    | .boolean true => Except.ok (Weights.param (List.replicate num_gaussians 1))
    | .tensor vs =>
        if vs.length = num_gaussians then Except.ok (Weights.fixed vs)
        else Except.error InitError.valueError
    | .boolean false => Except.error InitError.typeError
  Except.ok
    { num_gaussians := num_gaussians
      eps := eps
      padding_value := padding_value
      mean_offsets := List.replicate num_gaussians 0
      c := c
      weights := weights }

/-- The working copy `x_masked` of `forward`: positions equal to the
padding value are replaced by zero; without a padding value it is `x`. -/
def maskedInput (m : GaussianAdaptiveAttention) (x : List ℝ) : List ℝ :=
  match m.padding_value with
  | some p => x.map (fun v => if v = p then 0 else v)
  | none => x

/-- The per-slice mean computed by `forward` (over the working copy). -/
def dataMean (m : GaussianAdaptiveAttention) (x : List ℝ) : ℝ :=
  listMean (maskedInput m x)

/-- The per-slice variance computed by `forward`: `torch.var` of the
working copy plus `eps`. -/
def dataVar (m : GaussianAdaptiveAttention) (x : List ℝ) : ℝ :=
  listVar (maskedInput m x) + m.eps

/-- The `normalized_weights` of `forward`: softmax for an `nn.Parameter`,
the raw tensor otherwise. -/
def normalizedWeights (m : GaussianAdaptiveAttention) : List ℝ :=
  match m.weights with
  | .param w => softmax w
  | .fixed w => w

/-- The mixture-of-Gaussians response of `forward` at one element `v`,
given the per-slice `mean` and `var`: the loop
`mixture += normalized_weights[i] * exp(-((v - (mean + offs[i])) / sqrt var)^2 / (2 c[i]^2))`. -/
def mixtureAt (m : GaussianAdaptiveAttention) (mean var v : ℝ) : ℝ :=
  (List.range m.num_gaussians).foldl
    (fun acc i =>
      acc + (normalizedWeights m).getD i 0 *
        Real.exp (-(((v - (mean + m.mean_offsets.getD i 0)) / Real.sqrt var) ^ 2) /
          (2 * (m.c.getD i 0) ^ 2)))
    0

/-- The elementwise mixture tensor of `forward` (computed from the original
`x`, not the working copy). -/
def mixtureList (m : GaussianAdaptiveAttention) (x : List ℝ) : List ℝ :=
  x.map (mixtureAt m (dataMean m x) (dataVar m x))

/-- The `y_transform` tensor of `forward`:
`mixture / mixture.sum(dim).clamp(min=eps)`. -/
def yTransform (m : GaussianAdaptiveAttention) (x : List ℝ) : List ℝ :=
  (mixtureList m x).map (fun mv => mv / max (mixtureList m x).sum m.eps)

/-- `GaussianAdaptiveAttention.forward`: `x * y_transform`, except that with
a padding value the positions equal to it return the original `x`. -/
def forward (m : GaussianAdaptiveAttention) (x : List ℝ) : List ℝ :=
  match m.padding_value with
  | some p => (x.zip (yTransform m x)).map (fun vt => if vt.1 = p then vt.1 else vt.1 * vt.2)
  | none => (x.zip (yTransform m x)).map (fun vt => vt.1 * vt.2)

/-- The state of a constructed `MultiHeadGaussianAdaptiveAttention`: its
head count and its `nn.ModuleList` of heads, which the constructor makes
of exactly `num_heads` independently constructed cores. -/
structure MultiHeadGaussianAdaptiveAttention where
  num_heads : ℕ
  attention_heads : List GaussianAdaptiveAttention
  heads_len : attention_heads.length = num_heads

/-- `MultiHeadGaussianAdaptiveAttention.forward`: computes
`chunk_size = extent // num_heads`, raises `ValueError` when it is zero, and
otherwise concatenates each head applied to `x.narrow(axis, i*chunk_size,
chunk_size)` in head order. -/
def MHforward (m : MultiHeadGaussianAdaptiveAttention) (x : List ℝ) :
    Except String (List ℝ) :=
  let chunk_size := x.length / m.num_heads
  if chunk_size = 0 then
    Except.error "Input tensor size along norm_axis must be larger than the number of heads."
  else
    Except.ok
      ((m.attention_heads.enum.map
        (fun ih => forward ih.2 ((x.drop (ih.1 * chunk_size)).take chunk_size))).flatten)

/-- Specification-side notion for the padding contract: the elements of a
slice that differ from the padding value (the spec's phrase "only the
non-padding elements of that slice"). -/
def nonPaddingElems (p : ℝ) : List ℝ → List ℝ
  | [] => []
  | v :: vs => if v = p then nonPaddingElems p vs else v :: nonPaddingElems p vs

instance : Inhabited GaussianAdaptiveAttention :=
  ⟨{ num_gaussians := 0, eps := 0, padding_value := none,
     mean_offsets := [], c := [], weights := Weights.fixed [] }⟩

/-- Specification-side recomposition for the multi-partition contract: for
each head index `i` below the head count, take the contiguous slice of `x`
spanning positions `i * chunk_size` up to `(i + 1) * chunk_size`, run head
`i`'s single-head reweighter on it, and concatenate the results in head
order. -/
def specPartitionConcat (heads : List GaussianAdaptiveAttention)
    (chunk_size : ℕ) (x : List ℝ) : List ℝ :=
  ((List.range heads.length).map
    (fun i => forward (heads.getD i default)
      ((x.take ((i + 1) * chunk_size)).drop (i * chunk_size)))).flatten

/-- A concrete single-head module: one Gaussian, zero offset, scale 2,
learnable weights, no padding (the spec's concrete-scenario hyperparameters
with the constructor's learnable default). -/
def gaaDefault : GaussianAdaptiveAttention :=
  { num_gaussians := 1, eps := 1e-8, padding_value := none,
    mean_offsets := [0], c := [2], weights := Weights.param [1] }

/-- The same concrete module with padding value `5` configured. -/
def gaaPad5 : GaussianAdaptiveAttention :=
  { num_gaussians := 1, eps := 1e-8, padding_value := some 5,
    mean_offsets := [0], c := [2], weights := Weights.param [1] }

/-- The spec's concrete scenario: one Gaussian, `mean_offsets = [0]`,
`scale = [2.0]`, fixed uniform weight `[1.0]`, no padding. -/
def gaa3 : GaussianAdaptiveAttention :=
  { num_gaussians := 1, eps := 1e-8, padding_value := none,
    mean_offsets := [0], c := [2], weights := Weights.fixed [1] }

/-- A concrete two-head multi-partition module. -/
def mhTwo : MultiHeadGaussianAdaptiveAttention :=
  { num_heads := 2, attention_heads := [gaaDefault, gaaDefault], heads_len := rfl }

/-! ## General lemmas about the embedded operations -/

theorem sum_map_div (l : List ℝ) (f : ℝ → ℝ) (c : ℝ) :
    (l.map (fun v => f v / c)).sum = (l.map f).sum / c := by
  induction l with
  | nil => simp
  | cons a t ih => simp [ih, add_div]

theorem sum_map_div_const (l : List ℝ) (c : ℝ) :
    (l.map (fun v => v / c)).sum = l.sum / c := by
  induction l with
  | nil => simp
  | cons a t ih => simp [ih, add_div]

theorem yTransform_length (m : GaussianAdaptiveAttention) (x : List ℝ) :
    (yTransform m x).length = x.length := by
  simp [yTransform, mixtureList]

theorem forward_length (m : GaussianAdaptiveAttention) (x : List ℝ) :
    (forward m x).length = x.length := by
  unfold forward
  cases hp : m.padding_value <;>
    simp [List.length_zip, yTransform_length]

theorem softmax_nonneg (w : List ℝ) : ∀ v ∈ softmax w, 0 ≤ v := by
  intro v hv
  obtain ⟨a, ha, rfl⟩ := List.mem_map.mp hv
  have hS : 0 < (w.map Real.exp).sum :=
    List.sum_pos _
      (by intro y hy; obtain ⟨b, _, rfl⟩ := List.mem_map.mp hy; exact Real.exp_pos b)
      (by simp [List.map_eq_nil_iff]; exact List.ne_nil_of_mem ha)
  exact le_of_lt (div_pos (Real.exp_pos a) hS)

theorem softmax_sum_eq_one (w : List ℝ) (h : w ≠ []) : (softmax w).sum = 1 := by
  have hS : 0 < (w.map Real.exp).sum :=
    List.sum_pos _
      (by intro y hy; obtain ⟨b, _, rfl⟩ := List.mem_map.mp hy; exact Real.exp_pos b)
      (by simpa [List.map_eq_nil_iff] using h)
  rw [softmax, sum_map_div]
  exact div_self (ne_of_gt hS)

/-! ## Claim theorems -/

/-- C7: when the extent along the normalization axis divided by `num_heads`
is zero, `MultiHeadGaussianAdaptiveAttention.forward` raises the
configuration error at entry and produces no output. -/
theorem MHforward_chunk_size_zero (m : MultiHeadGaussianAdaptiveAttention)
    (x : List ℝ) (h : x.length / m.num_heads = 0) :
    MHforward m x = Except.error
      "Input tensor size along norm_axis must be larger than the number of heads." := by
  simp [MHforward, h]

/-- Witness for C7: a two-head module on a length-1 input errors. -/
theorem MHforward_chunk_size_zero_witness :
    MHforward mhTwo [1] = Except.error
      "Input tensor size along norm_axis must be larger than the number of heads." :=
  MHforward_chunk_size_zero mhTwo [1] (by decide)

/-- C8: an explicit `initial_c` tensor of length other than `num_gaussians`
makes construction raise `ValueError`; with the matching length,
construction succeeds and stores that tensor as the per-component scales. -/
theorem init_initial_c_validation (G : ℕ) (vs : List ℝ) (eps : ℝ)
    (lw : WeightsArg) (pv : Option ℝ) :
    (vs.length ≠ G →
      init G (ScaleArg.tensor vs) eps lw pv = Except.error InitError.valueError) ∧
    (vs.length = G →
      ∃ m, init G (ScaleArg.tensor vs) eps (WeightsArg.boolean true) pv = Except.ok m ∧
        m.c = vs) := by
  constructor
  · intro h
    simp [init, h, bind, Except.bind]
  · intro h
    refine ⟨{ num_gaussians := G, eps := eps, padding_value := pv,
              mean_offsets := List.replicate G 0, c := vs,
              weights := Weights.param (List.replicate G 1) }, ?_, rfl⟩
    simp [init, h, bind, Except.bind]

/-- Witness for C8: with one Gaussian, a length-2 scale tensor is rejected
and a length-1 scale tensor is accepted and stored. -/
theorem init_initial_c_validation_witness :
    ((List.length [(3 : ℝ), 4] ≠ 1 →
        init 1 (ScaleArg.tensor [3, 4]) 1e-8 (WeightsArg.boolean true) none =
          Except.error InitError.valueError) ∧
      (List.length [(3 : ℝ), 4] = 1 →
        ∃ m, init 1 (ScaleArg.tensor [3, 4]) 1e-8 (WeightsArg.boolean true) none =
          Except.ok m ∧ m.c = [3, 4])) ∧
    ((List.length [(3 : ℝ)] ≠ 1 →
        init 1 (ScaleArg.tensor [3]) 1e-8 (WeightsArg.boolean true) none =
          Except.error InitError.valueError) ∧
      (List.length [(3 : ℝ)] = 1 →
        ∃ m, init 1 (ScaleArg.tensor [3]) 1e-8 (WeightsArg.boolean true) none =
          Except.ok m ∧ m.c = [3])) :=
  ⟨init_initial_c_validation 1 [3, 4] 1e-8 (WeightsArg.boolean true) none,
   init_initial_c_validation 1 [3] 1e-8 (WeightsArg.boolean true) none⟩

/-- C10: `learnable_weights = False` raises `TypeError` at construction;
only the literal `True` selects learnable mode (a parameter of ones), and a
tensor whose length differs from `num_gaussians` raises `ValueError`. -/
theorem init_weights_validation (G : ℕ) (v eps : ℝ) (pv : Option ℝ) :
    init G (ScaleArg.scalar v) eps (WeightsArg.boolean false) pv =
        Except.error InitError.typeError ∧
    (∃ m, init G (ScaleArg.scalar v) eps (WeightsArg.boolean true) pv = Except.ok m ∧
      m.weights = Weights.param (List.replicate G 1)) ∧
    (∀ ws : List ℝ, ws.length ≠ G →
      init G (ScaleArg.scalar v) eps (WeightsArg.tensor ws) pv =
        Except.error InitError.valueError) := by
  refine ⟨by simp [init, bind, Except.bind], ?_, ?_⟩
  · exact ⟨{ num_gaussians := G, eps := eps, padding_value := pv,
             mean_offsets := List.replicate G 0, c := List.replicate G v,
             weights := Weights.param (List.replicate G 1) },
      by simp [init, bind, Except.bind], rfl⟩
  · intro ws hws
    simp [init, hws, bind, Except.bind]

/-- Witness for C10 at concrete arguments. -/
theorem init_weights_validation_witness :
    init 1 (ScaleArg.scalar 2) 1e-8 (WeightsArg.boolean false) none =
        Except.error InitError.typeError ∧
    (∃ m, init 1 (ScaleArg.scalar 2) 1e-8 (WeightsArg.boolean true) none = Except.ok m ∧
      m.weights = Weights.param (List.replicate 1 1)) ∧
    (∀ ws : List ℝ, ws.length ≠ 1 →
      init 1 (ScaleArg.scalar 2) 1e-8 (WeightsArg.tensor ws) none =
        Except.error InitError.valueError) :=
  init_weights_validation 1 2 1e-8 none

/-- C6: in learnable mode the weights used by `forward` are the softmax of
the parameter vector across the `num_gaussians` components; each is
non-negative and they sum to exactly 1. -/
theorem normalizedWeights_learnable_softmax (m : GaussianAdaptiveAttention)
    (w : List ℝ) (hw : m.weights = Weights.param w)
    (hlen : w.length = m.num_gaussians) (hG : 1 ≤ m.num_gaussians) :
    normalizedWeights m = softmax w ∧
    (∀ v ∈ normalizedWeights m, 0 ≤ v) ∧ (normalizedWeights m).sum = 1 := by
  have hne : w ≠ [] := by
    apply List.ne_nil_of_length_pos
    omega
  have h1 : normalizedWeights m = softmax w := by
    simp [normalizedWeights, hw]
  exact ⟨h1, by rw [h1]; exact softmax_nonneg w,
    by rw [h1]; exact softmax_sum_eq_one w hne⟩

/-- Witness for C6 at the concrete learnable module. -/
theorem normalizedWeights_learnable_softmax_witness :
    normalizedWeights gaaDefault = softmax [1] ∧
    (∀ v ∈ normalizedWeights gaaDefault, 0 ≤ v) ∧
    (normalizedWeights gaaDefault).sum = 1 :=
  normalizedWeights_learnable_softmax gaaDefault [1] rfl rfl (by decide)

/-- C9: without padding, the per-slice transform sums to 1 whenever the
unclamped mixture sum reaches `eps`; otherwise the clamp makes the sum
equal to the mixture sum over `eps`, which is then below 1. -/
theorem yTransform_sum_normalized (m : GaussianAdaptiveAttention) (x : List ℝ)
    (hpad : m.padding_value = none) (heps : 0 < m.eps) :
    (m.eps ≤ (mixtureList m x).sum → (yTransform m x).sum = 1) ∧
    ((mixtureList m x).sum < m.eps →
      (yTransform m x).sum = (mixtureList m x).sum / m.eps ∧
      (mixtureList m x).sum / m.eps < 1) := by
  have hsum : (yTransform m x).sum =
      (mixtureList m x).sum / max (mixtureList m x).sum m.eps :=
    sum_map_div_const _ _
  constructor
  · intro h
    rw [hsum, max_eq_left h]
    exact div_self (ne_of_gt (lt_of_lt_of_le heps h))
  · intro h
    rw [hsum, max_eq_right (le_of_lt h)]
    exact ⟨rfl, (div_lt_one heps).mpr h⟩

/-- Witness for C9 at the concrete no-padding module. -/
theorem yTransform_sum_normalized_witness :
    (gaaDefault.eps ≤ (mixtureList gaaDefault [1, 2]).sum →
      (yTransform gaaDefault [1, 2]).sum = 1) ∧
    ((mixtureList gaaDefault [1, 2]).sum < gaaDefault.eps →
      (yTransform gaaDefault [1, 2]).sum =
        (mixtureList gaaDefault [1, 2]).sum / gaaDefault.eps ∧
      (mixtureList gaaDefault [1, 2]).sum / gaaDefault.eps < 1) :=
  yTransform_sum_normalized gaaDefault [1, 2] rfl (by norm_num [gaaDefault])

theorem getD_map_zip (xs ys : List ℝ) (f : ℝ × ℝ → ℝ) (i : ℕ)
    (hi : i < xs.length) (hlen : ys.length = xs.length) :
    ((xs.zip ys).map f).getD i 0 = f (xs.getD i 0, ys.getD i 0) := by
  induction xs generalizing ys i with
  | nil => simp at hi
  | cons a t ih =>
    cases ys with
    | nil => simp at hlen
    | cons b u =>
      cases i with
      | zero => simp
      | succ j =>
        have hj : j < t.length := by simpa using hi
        have hu : u.length = t.length := by simpa using hlen
        simpa using ih u j hj hu

/-- C1: with a configured padding value, `forward` returns the original
input exactly at padding positions, and the input times the transform
everywhere else. -/
theorem forward_padding_passthrough (m : GaussianAdaptiveAttention) (p : ℝ)
    (hp : m.padding_value = some p) (x : List ℝ) (i : ℕ) (hi : i < x.length) :
    (x.getD i 0 = p → (forward m x).getD i 0 = x.getD i 0) ∧
    (x.getD i 0 ≠ p → (forward m x).getD i 0 = x.getD i 0 * (yTransform m x).getD i 0) := by
  have hfwd : forward m x =
      (x.zip (yTransform m x)).map (fun vt => if vt.1 = p then vt.1 else vt.1 * vt.2) := by
    simp [forward, hp]
  rw [hfwd, getD_map_zip x _ _ i hi (yTransform_length m x)]
  constructor
  · intro hxp
    exact if_pos hxp
  · intro hxp
    exact if_neg hxp

/-- Witness for C1: the padding-5 module on `[5, 1]` at position 0. -/
theorem forward_padding_passthrough_witness :
    (List.getD [(5 : ℝ), 1] 0 0 = 5 →
      (forward gaaPad5 [5, 1]).getD 0 0 = List.getD [(5 : ℝ), 1] 0 0) ∧
    (List.getD [(5 : ℝ), 1] 0 0 ≠ 5 →
      (forward gaaPad5 [5, 1]).getD 0 0 =
        List.getD [(5 : ℝ), 1] 0 0 * (yTransform gaaPad5 [5, 1]).getD 0 0) :=
  forward_padding_passthrough gaaPad5 5 rfl [5, 1] 0 (by norm_num)

theorem sum_zeroFill_eq_sum_nonPadding (p : ℝ) (x : List ℝ) :
    (x.map (fun v => if v = p then 0 else v)).sum = (nonPaddingElems p x).sum := by
  induction x with
  | nil => simp [nonPaddingElems]
  | cons a t ih =>
    by_cases h : a = p <;> simp [nonPaddingElems, h, ih]

/-- C2 (amended): with a configured padding value, the mean used by
`forward` is the sum of the non-padding elements divided by the full slice
length, and the variance is the (unbiased) variance of the zero-filled
copy plus `eps` — not the statistics of only the non-padding elements. -/
theorem masked_statistics (m : GaussianAdaptiveAttention) (p : ℝ)
    (hp : m.padding_value = some p) (x : List ℝ) :
    dataMean m x = (nonPaddingElems p x).sum / x.length ∧
    dataVar m x = listVar (x.map (fun v => if v = p then 0 else v)) + m.eps := by
  have hmask : maskedInput m x = x.map (fun v => if v = p then 0 else v) := by
    simp [maskedInput, hp]
  constructor
  · rw [dataMean, hmask, listMean, sum_zeroFill_eq_sum_nonPadding, List.length_map]
  · rw [dataVar, hmask]

/-- Witness for C2's amended statement at the padding-5 module on `[1, 5]`. -/
theorem masked_statistics_witness :
    dataMean gaaPad5 [1, 5] = (nonPaddingElems 5 [1, 5]).sum / List.length [(1 : ℝ), 5] ∧
    dataVar gaaPad5 [1, 5] =
      listVar (List.map (fun v => if v = 5 then 0 else v) [(1 : ℝ), 5]) + gaaPad5.eps :=
  masked_statistics gaaPad5 5 rfl [1, 5]

/-- Counterexample for C2 as stated: on input `[1, 5]` with padding value
5, the mean the code uses is `1/2` (the zero-filled slice divided by the
full length 2), while the mean of only the non-padding elements is `1`. -/
theorem masked_mean_not_filtered_mean :
    dataMean gaaPad5 [1, 5] = 1 / 2 ∧
    listMean (nonPaddingElems 5 [1, 5]) = 1 ∧
    dataMean gaaPad5 [1, 5] ≠ listMean (nonPaddingElems 5 [1, 5]) := by
  have h1 : dataMean gaaPad5 [1, 5] = 1 / 2 := by
    norm_num [dataMean, maskedInput, gaaPad5, listMean]
  have h2 : listMean (nonPaddingElems 5 [1, 5]) = 1 := by
    norm_num [nonPaddingElems, listMean]
  refine ⟨h1, h2, ?_⟩
  rw [h1, h2]
  norm_num

/-- C4: when `chunk_size = extent // num_heads` is at least 1, the
multi-head output exists and its extent along the axis is
`num_heads * (extent // num_heads)`: equal to the extent when divisible,
and short of the trailing `extent mod num_heads` elements otherwise. -/
theorem MHforward_extent (m : MultiHeadGaussianAdaptiveAttention) (x : List ℝ)
    (h : 1 ≤ x.length / m.num_heads) :
    ∃ out, MHforward m x = Except.ok out ∧
      out.length = m.num_heads * (x.length / m.num_heads) ∧
      (m.num_heads ∣ x.length → out.length = x.length) := by
  have hc0 : x.length / m.num_heads ≠ 0 := by omega
  refine ⟨(m.attention_heads.enum.map
      (fun ih => forward ih.2
        ((x.drop (ih.1 * (x.length / m.num_heads))).take (x.length / m.num_heads)))).flatten,
    by simp [MHforward, hc0], ?_, ?_⟩
  · rw [List.length_flatten, List.map_map]
    have hall : ∀ y ∈ m.attention_heads.enum.map (List.length ∘
        (fun ih => forward ih.2
          ((x.drop (ih.1 * (x.length / m.num_heads))).take (x.length / m.num_heads)))),
        y = x.length / m.num_heads := by
      intro y hy
      obtain ⟨ih, hmem, rfl⟩ := List.mem_map.mp hy
      have hi : ih.1 < m.num_heads := by
        rw [← m.heads_len]
        have hr : ih.1 ∈ m.attention_heads.enum.map Prod.fst := List.mem_map_of_mem _ hmem
        rw [List.enum_map_fst] at hr
        exact List.mem_range.mp hr
      have h2 : (ih.1 + 1) * (x.length / m.num_heads) ≤
          m.num_heads * (x.length / m.num_heads) :=
        Nat.mul_le_mul_right _ hi
      have h3 : m.num_heads * (x.length / m.num_heads) ≤ x.length := by
        rw [mul_comm]
        exact Nat.div_mul_le_self x.length m.num_heads
      rw [Nat.succ_mul] at h2
      simp only [Function.comp, forward_length, List.length_take, List.length_drop]
      omega
    rw [List.sum_eq_card_nsmul _ _ hall, List.length_map, List.enum_length,
      m.heads_len, smul_eq_mul]
  · intro hdvd
    rw [List.length_flatten, List.map_map]
    have hall : ∀ y ∈ m.attention_heads.enum.map (List.length ∘
        (fun ih => forward ih.2
          ((x.drop (ih.1 * (x.length / m.num_heads))).take (x.length / m.num_heads)))),
        y = x.length / m.num_heads := by
      intro y hy
      obtain ⟨ih, hmem, rfl⟩ := List.mem_map.mp hy
      have hi : ih.1 < m.num_heads := by
        rw [← m.heads_len]
        have hr : ih.1 ∈ m.attention_heads.enum.map Prod.fst := List.mem_map_of_mem _ hmem
        rw [List.enum_map_fst] at hr
        exact List.mem_range.mp hr
      have h2 : (ih.1 + 1) * (x.length / m.num_heads) ≤
          m.num_heads * (x.length / m.num_heads) :=
        Nat.mul_le_mul_right _ hi
      have h3 : m.num_heads * (x.length / m.num_heads) ≤ x.length := by
        rw [mul_comm]
        exact Nat.div_mul_le_self x.length m.num_heads
      rw [Nat.succ_mul] at h2
      simp only [Function.comp, forward_length, List.length_take, List.length_drop]
      omega
    rw [List.sum_eq_card_nsmul _ _ hall, List.length_map, List.enum_length,
      m.heads_len, smul_eq_mul, Nat.mul_div_cancel' hdvd]

/-- Witness for C4: the two-head module on an 8-element input. -/
theorem MHforward_extent_witness :
    ∃ out, MHforward mhTwo [1, 2, 3, 4, 5, 6, 7, 8] = Except.ok out ∧
      out.length = mhTwo.num_heads *
        (List.length [(1 : ℝ), 2, 3, 4, 5, 6, 7, 8] / mhTwo.num_heads) ∧
      (mhTwo.num_heads ∣ List.length [(1 : ℝ), 2, 3, 4, 5, 6, 7, 8] →
        out.length = List.length [(1 : ℝ), 2, 3, 4, 5, 6, 7, 8]) :=
  MHforward_extent mhTwo [1, 2, 3, 4, 5, 6, 7, 8] (by decide)

/-- C5: the multi-head output is exactly the concatenation, in head order,
of each head's independent single-head result on its contiguous slice
`[i * chunk_size, (i + 1) * chunk_size)` of the input. -/
theorem MHforward_eq_specPartitionConcat (m : MultiHeadGaussianAdaptiveAttention)
    (x : List ℝ) (h : x.length / m.num_heads ≠ 0) :
    MHforward m x =
      Except.ok (specPartitionConcat m.attention_heads (x.length / m.num_heads) x) := by
  simp only [MHforward, specPartitionConcat, if_neg h]
  congr 1
  congr 1
  apply List.ext_getElem
  · simp [List.enum_length]
  · intro i h1 h2
    have hilen : i < m.attention_heads.length := by
      simpa [List.enum_length] using h1
    rw [List.getElem_map, List.getElem_map, List.getElem_enum, List.getElem_range]
    rw [List.getD_eq_getElem m.attention_heads default hilen]
    rw [List.take_drop, Nat.succ_mul]

/-- Witness for C5: the two-head module on a 2-element input. -/
theorem MHforward_eq_specPartitionConcat_witness :
    MHforward mhTwo [1, 2] =
      Except.ok (specPartitionConcat mhTwo.attention_heads
        (List.length [(1 : ℝ), 2] / mhTwo.num_heads) [1, 2]) :=
  MHforward_eq_specPartitionConcat mhTwo [1, 2] (by decide)

theorem forward_no_padding (m : GaussianAdaptiveAttention)
    (hp : m.padding_value = none) (x : List ℝ) :
    forward m x = (x.zip (yTransform m x)).map (fun vt => vt.1 * vt.2) := by
  simp [forward, hp]

theorem gaa3_dataMean : dataMean gaa3 [1, 2, 3, 4] = 5 / 2 := by
  norm_num [dataMean, maskedInput, gaa3, listMean]

theorem gaa3_dataVar : dataVar gaa3 [1, 2, 3, 4] = 5 / 3 + 1e-8 := by
  norm_num [dataVar, maskedInput, gaa3, listVar, listMean]

theorem gaa3_mixtureAt (mean var v : ℝ) (hvar : 0 ≤ var) :
    mixtureAt gaa3 mean var v = Real.exp (-((v - mean) ^ 2 / var) / 8) := by
  have hr : List.range 1 = [0] := rfl
  simp only [mixtureAt, gaa3, normalizedWeights, hr, List.foldl_cons,
    List.foldl_nil, List.getD_cons_zero, zero_add, one_mul, add_zero]
  rw [div_pow, Real.sq_sqrt hvar]
  norm_num

/-- Counterexample for C3 as stated: on `[1.0, 2.0, 3.0, 4.0]` the variance
the code uses is `5/3 + eps` — torch's default unbiased variance, dividing
by `n - 1` — not `5/4 + eps`; the gap is `5/12`, far beyond any
floating-point tolerance. -/
theorem gaa3_variance_counterexample :
    dataMean gaa3 [1, 2, 3, 4] = 5 / 2 ∧
    dataVar gaa3 [1, 2, 3, 4] = 5 / 3 + 1e-8 ∧
    |dataVar gaa3 [1, 2, 3, 4] - (5 / 4 + 1e-8)| > 1 / 3 := by
  refine ⟨gaa3_dataMean, gaa3_dataVar, ?_⟩
  rw [gaa3_dataVar]
  have hd : (5 / 3 + 1e-8 : ℝ) - (5 / 4 + 1e-8) = 5 / 12 := by norm_num
  rw [hd, abs_of_pos (by norm_num)]
  norm_num

/-- C3 (amended): on `[1.0, 2.0, 3.0, 4.0]` the concrete module computes
per-slice mean `5/2` and variance `5/3 + eps` (torch's unbiased variance),
and the output is the input scaled by a symmetric bell-shaped weight: one
positive weight shared by the extreme values 1 and 4, and a strictly
larger weight shared by the central values 2 and 3 (those closest to the
mean `5/2`). -/
theorem gaa3_concrete_scenario :
    dataMean gaa3 [1, 2, 3, 4] = 5 / 2 ∧
    dataVar gaa3 [1, 2, 3, 4] = 5 / 3 + 1e-8 ∧
    ∃ t0 t1 : ℝ, 0 < t0 ∧ t0 < t1 ∧
      forward gaa3 [1, 2, 3, 4] = [1 * t0, 2 * t1, 3 * t1, 4 * t0] := by
  refine ⟨gaa3_dataMean, gaa3_dataVar, ?_⟩
  set s : ℝ := 5 / 3 + 1e-8 with hs
  have hspos : (0 : ℝ) < s := by rw [hs]; norm_num
  set g : ℝ → ℝ := fun v => Real.exp (-((v - 5 / 2) ^ 2 / s) / 8) with hg
  have hgv : ∀ v : ℝ, g v = Real.exp (-((v - 5 / 2) ^ 2 / s) / 8) := by
    intro v
    rw [hg]
  have hmix : ∀ v : ℝ,
      mixtureAt gaa3 (dataMean gaa3 [1, 2, 3, 4]) (dataVar gaa3 [1, 2, 3, 4]) v = g v := by
    intro v
    rw [gaa3_dataMean, gaa3_dataVar, ← hs, gaa3_mixtureAt _ _ _ hspos.le, hgv]
  have hml : mixtureList gaa3 [1, 2, 3, 4] = [g 1, g 2, g 3, g 4] := by
    simp only [mixtureList, List.map_cons, List.map_nil]
    rw [hmix 1, hmix 2, hmix 3, hmix 4]
  have hg14 : g 1 = g 4 := by
    rw [hgv 1, hgv 4]
    congr 1
    norm_num
  have hg23 : g 2 = g 3 := by
    rw [hgv 2, hgv 3]
    congr 1
    norm_num
  have hg12 : g 1 < g 2 := by
    rw [hgv 1, hgv 2]
    apply Real.exp_lt_exp.mpr
    have h1 : ((1 : ℝ) - 5 / 2) ^ 2 = 9 / 4 := by norm_num
    have h2 : ((2 : ℝ) - 5 / 2) ^ 2 = 1 / 4 := by norm_num
    rw [h1, h2]
    have key : (1 / 4 : ℝ) / s < (9 / 4) / s :=
      (div_lt_div_iff_of_pos_right hspos).mpr (by norm_num)
    linarith [key]
  have hgpos : ∀ v : ℝ, 0 < g v := by
    intro v
    rw [hgv v]
    exact Real.exp_pos _
  have hg2big : 1 - 1 / 32 ≤ g 2 := by
    have hle := Real.add_one_le_exp (-(((2 : ℝ) - 5 / 2) ^ 2 / s) / 8)
    have hone : (1 : ℝ) ≤ s := by rw [hs]; norm_num
    have harg : (((2 : ℝ) - 5 / 2) ^ 2 / s) / 8 ≤ 1 / 32 := by
      have hq : (((2 : ℝ) - 5 / 2) ^ 2) = 1 / 4 := by norm_num
      rw [hq]
      have h14 : (1 / 4 : ℝ) / s ≤ 1 / 4 := div_le_self (by norm_num) hone
      linarith
    rw [hgv 2]
    linarith
  have hT : (mixtureList gaa3 [1, 2, 3, 4]).sum = g 1 + g 2 + g 3 + g 4 := by
    rw [hml]
    simp only [List.sum_cons, List.sum_nil]
    ring
  have hTpos : 0 < g 1 + g 2 + g 3 + g 4 := by
    have h1 := hgpos 1
    have h2 := hgpos 2
    have h3 := hgpos 3
    have h4 := hgpos 4
    linarith
  have hTeps : gaa3.eps ≤ (mixtureList gaa3 [1, 2, 3, 4]).sum := by
    have heps : gaa3.eps = 1e-8 := rfl
    rw [heps, hT]
    have h1 := hgpos 1
    have h3 := hgpos 3
    have h4 := hgpos 4
    have h8 : (1e-8 : ℝ) ≤ 1 - 1 / 32 := by norm_num
    linarith
  have hyT : yTransform gaa3 [1, 2, 3, 4] =
      [g 1 / (g 1 + g 2 + g 3 + g 4), g 2 / (g 1 + g 2 + g 3 + g 4),
       g 3 / (g 1 + g 2 + g 3 + g 4), g 4 / (g 1 + g 2 + g 3 + g 4)] := by
    rw [yTransform, max_eq_left hTeps, hT, hml]
    simp [List.map_cons]
  refine ⟨g 1 / (g 1 + g 2 + g 3 + g 4), g 2 / (g 1 + g 2 + g 3 + g 4),
    div_pos (hgpos 1) hTpos, (div_lt_div_iff_of_pos_right hTpos).mpr hg12, ?_⟩
  rw [forward_no_padding gaa3 rfl, hyT]
  simp only [List.zip_cons_cons, List.zip_nil_right, List.map_cons, List.map_nil]
  rw [← hg23, ← hg14]

end MHGAAM

end
